import Mathlib

/-!
Shallow embedding of `src/spotify_to_youtube.py` (a Spotify → YouTube playlist
converter) and proofs about its matching / reconciliation engine.

Remote calls are modelled as explicit deterministic oracles
(`SearchRequest → Except HttpError …`, `InsertRequest → Except HttpError …`);
Python's in-place dict mutation of the match cache is modelled by threading a
`Cache` value, and the orchestrator layer threads the cache through per-playlist
outcomes so that cache updates survive a per-playlist exception, as they do for
the shared dict object in Python.

A modelling note that matters for the retry executor: in the Python source the
executor is applied to `youtube.search().list` / `youtube.playlistItems().insert`,
which merely CONSTRUCT an HttpRequest object and perform no network I/O
(googleapiclient raises `HttpError` only from `HttpRequest.execute()`), while
`.execute()` is invoked on the executor's return value, outside the wrapped
region.  The embedding keeps this structure: request construction is a pure,
never-failing function passed to `retry`, and the oracle call that can fail is
made on the result of `retry`.
-/

namespace PlaylistConverter

/-- An HTTP error as raised by the remote client, identified by its status. -/
structure HttpError where
  status : Nat
deriving DecidableEq, Repr

/-- Status codes the source treats as transient: `[403, 409, 429, 500, 503]`
(line `if e.resp.status in [403, 409, 429, 500, 503]`). -/
def isTransient (s : Nat) : Bool :=
  s == 403 || s == 409 || s == 429 || s == 500 || s == 503

/-- Observable outcome of one call to the executor: the returned value
(`Except.ok none` models Python's implicit `return None` after the loop ends,
`Except.error` models a raised exception), the number of invocations of the
wrapped function, and the list of back-off sleep durations in order. -/
structure RetryTrace (α : Type) where
  result : Except HttpError (Option α)
  calls : Nat
  sleeps : List Nat

/-- The loop body of `retry`: `fuel` attempts remain, the next one has index
`attempt`.  Mirrors
`for attempt in range(max_retries): try: return func(...) except HttpError as e:
 if e.resp.status in [...]: time.sleep(2 ** attempt) else: raise`
with the implicit `None` fall-through when the loop ends. -/
def retryFrom {α : Type} (func : Nat → Except HttpError α) :
    Nat → Nat → RetryTrace α
  | _, 0 => { result := Except.ok none, calls := 0, sleeps := [] }
  | attempt, fuel + 1 =>
    match func attempt with
    | Except.ok a => { result := Except.ok (some a), calls := 1, sleeps := [] }
    | Except.error e =>
      if isTransient e.status then
        let rest := retryFrom func (attempt + 1) fuel
        { result := rest.result, calls := rest.calls + 1,
          sleeps := 2 ^ attempt :: rest.sleeps }
      else
        { result := Except.error e, calls := 1, sleeps := [] }

/-- `max_retries = 5` in `retry`. -/
def max_retries : Nat := 5

/-- `retry(func, *args, **kwargs)` from the source, with the wrapped call
modelled as a function of the attempt index (so an oracle can choose a
different outcome for each invocation). -/
def retry {α : Type} (func : Nat → Except HttpError α) : RetryTrace α :=
  retryFrom func 0 max_retries

theorem retryFrom_calls_le {α : Type} (func : Nat → Except HttpError α) :
    ∀ fuel attempt, (retryFrom func attempt fuel).calls ≤ fuel := by
  intro fuel
  induction fuel with
  | zero => intro attempt; simp [retryFrom]
  | succ n ih =>
    intro attempt
    simp only [retryFrom]
    cases hf : func attempt with
    | ok a => simp
    | error e =>
      by_cases h : isTransient e.status = true
      · simp only [h, if_true]
        exact Nat.succ_le_succ (ih (attempt + 1))
      · simp [h]

/-- Skipping past a block of `k` consecutive transient failures: the executor
performs `k` extra calls and sleeps `2 ^ attempt` for each of them, then behaves
as the executor started at attempt `attempt + k` with `fuel - k` attempts left. -/
theorem retryFrom_skip {α : Type} (func : Nat → Except HttpError α) :
    ∀ (k attempt fuel : Nat), k ≤ fuel →
    (∀ i, i < k → ∃ e, func (attempt + i) = Except.error e ∧
      isTransient e.status = true) →
    retryFrom func attempt fuel =
      { result := (retryFrom func (attempt + k) (fuel - k)).result,
        calls := (retryFrom func (attempt + k) (fuel - k)).calls + k,
        sleeps := (List.range k).map (fun i => 2 ^ (attempt + i)) ++
          (retryFrom func (attempt + k) (fuel - k)).sleeps } := by
  intro k
  induction k with
  | zero => intro attempt fuel _ _; simp
  | succ n ih =>
    intro attempt fuel hle h
    obtain ⟨f, rfl⟩ : ∃ f, fuel = f + 1 := ⟨fuel - 1, by omega⟩
    obtain ⟨e, he, htr⟩ := h 0 (Nat.succ_pos n)
    simp only [Nat.add_zero] at he
    simp only [retryFrom, he, htr, if_true]
    have step := ih (attempt + 1) f (by omega)
      (fun i hi => by
        have := h (i + 1) (by omega)
        simpa [Nat.add_assoc, Nat.add_comm 1 i] using this)
    rw [step]
    have harr : attempt + 1 + n = attempt + (n + 1) := by omega
    have hfuel : f - n = f + 1 - (n + 1) := by omega
    rw [harr, hfuel]
    simp only [List.range_succ_eq_map, List.map_cons, List.map_map, Nat.add_zero,
      List.cons_append, RetryTrace.mk.injEq]
    refine ⟨trivial, by omega, ?_⟩
    congr 1
    congr 1
    apply List.map_congr_left
    intro i _
    simp only [Function.comp_apply]
    congr 1
    omega

/-- C7: for every wrapped operation, the executor invokes it at most
`max_retries = 5` times; if attempts `0, …, k-1` fail transiently then the
executor has slept `2 ^ attempt` for each of those attempts in order; on
attempt `k`, a non-transient failure propagates immediately — exactly `k + 1`
invocations, and no sleep beyond the `k` earlier back-off sleeps — while a
success returns the value with the same call count and sleeps. -/
theorem retry_backoff_bound {α : Type} (func : Nat → Except HttpError α)
    (k : Nat) (hk : k < max_retries)
    (htrans : ∀ i, i < k → ∃ e, func i = Except.error e ∧
      isTransient e.status = true) :
    (retry func).calls ≤ max_retries ∧
    (∀ e, func k = Except.error e → isTransient e.status = false →
      (retry func).result = Except.error e ∧ (retry func).calls = k + 1 ∧
      (retry func).sleeps = (List.range k).map (fun i => 2 ^ i)) ∧
    (∀ a, func k = Except.ok a →
      (retry func).result = Except.ok (some a) ∧ (retry func).calls = k + 1 ∧
      (retry func).sleeps = (List.range k).map (fun i => 2 ^ i)) := by
  have hskip := retryFrom_skip func k 0 max_retries (le_of_lt hk)
    (fun i hi => by simpa using htrans i hi)
  simp only [Nat.zero_add] at hskip
  obtain ⟨m, hm⟩ : ∃ m, max_retries - k = m + 1 := ⟨max_retries - k - 1, by omega⟩
  refine ⟨?_, ?_, ?_⟩
  · rw [retry, hskip]
    have := retryFrom_calls_le func (max_retries - k) k
    simp only []
    omega
  · intro e he hnt
    rw [retry, hskip, hm]
    simp [retryFrom, he, hnt]
    omega
  · intro a ha
    rw [retry, hskip, hm]
    simp [retryFrom, ha]
    omega

/-- An operation whose first invocation fails with non-transient status 404. -/
def constFail : Nat → Except HttpError Nat :=
  fun _ => Except.error { status := 404 }

/-- Witness for C7: a fatal 404 on the first attempt propagates at once,
after exactly one invocation and no sleep. -/
theorem retry_backoff_bound_witness :
    (retry constFail).calls ≤ max_retries ∧
    (retry constFail).result = Except.error { status := 404 } ∧
    (retry constFail).calls = 1 ∧ (retry constFail).sleeps = [] := by
  have h := retry_backoff_bound constFail 0 (by decide)
    (fun i hi => absurd hi (by omega))
  have h2 := h.2.1 { status := 404 } rfl (by decide)
  exact ⟨h.1, h2.1, h2.2.1, by simpa using h2.2.2⟩

/-- An operation failing with transient status 429 on every invocation. -/
def always429 : Nat → Except HttpError Nat :=
  fun _ => Except.error { status := 429 }

/-- C1 counterexample: when all 5 attempts fail transiently (status 429), the
executor returns `Except.ok none` — Python's implicit `return None` after the
loop — after 5 invocations; the last failure is NOT propagated as an error,
so the executor does return an absent result in place of a failure. -/
theorem retry_exhaustion_counterexample :
    (retry always429).result = Except.ok none ∧ (retry always429).calls = 5 := by
  constructor <;> rfl

/-- C1 (amended): if all `max_retries = 5` attempts fail transiently, the
executor swallows the last failure and returns the absent value
`Except.ok none` (Python `None`) to the caller, after 5 invocations and 5
back-off sleeps `2 ^ 0, …, 2 ^ 4`. -/
theorem retry_exhaustion_returns_none {α : Type} (func : Nat → Except HttpError α)
    (h : ∀ i, i < max_retries → ∃ e, func i = Except.error e ∧
      isTransient e.status = true) :
    (retry func).result = Except.ok none ∧ (retry func).calls = max_retries ∧
    (retry func).sleeps = (List.range max_retries).map (fun i => 2 ^ i) := by
  have hskip := retryFrom_skip func max_retries 0 max_retries le_rfl
    (fun i hi => by simpa using h i hi)
  rw [retry, hskip]
  simp [retryFrom]

/-- Witness for the amended C1 at the concrete always-429 operation. -/
theorem retry_exhaustion_returns_none_witness :
    (∀ i, i < max_retries → ∃ e, always429 i = Except.error e ∧
      isTransient e.status = true) ∧
    ((retry always429).result = Except.ok none ∧
     (retry always429).calls = max_retries ∧
     (retry always429).sleeps = (List.range max_retries).map (fun i => 2 ^ i)) :=
  ⟨fun _ _ => ⟨{ status := 429 }, rfl, rfl⟩,
   retry_exhaustion_returns_none always429
     (fun _ _ => ⟨{ status := 429 }, rfl, rfl⟩)⟩

/-- A YouTube search request as constructed by
`youtube.search().list(q=query, part='snippet', type='video', maxResults=5)`.
Constructing the request performs no I/O and never raises `HttpError`. -/
structure SearchRequest where
  q : String
  maxResults : Nat
deriving DecidableEq, Repr

/-- `youtube.search().list(q=query, ..., maxResults=5)`. -/
def searchList (query : String) : SearchRequest :=
  { q := query, maxResults := 5 }

/-- One item of a search response: `item['snippet']['title']` and
`item['id']['videoId']`. -/
structure Candidate where
  title : String
  videoId : String
deriving DecidableEq, Repr

/-- The persistent match cache (`video_cache.json` loaded as a dict), a mapping
from track descriptor to video id.  Modelled as an association list where
`cache[original_title] = v` prepends a binding and reads take the most recent
binding. -/
abbrev Cache := List (String × String)

/-- Python truthiness of an optional string (`if best_video_id:` /
`if not video_id:`): `None` and the empty string are falsy. -/
def pyTruthy : Option String → Bool
  | none => false
  | some s => !(s == "")

/-- `score = fuzz.token_set_ratio(video_title.lower(), original_title.lower())`.
`fuzz.token_set_ratio` and `str.lower` are external-library / builtin string
functions, so the composite similarity function
`fun a b => token_set_ratio a.lower b.lower` is abstracted as `scorer`, applied
to the candidate's raw title and the raw descriptor; the claims concern the
selection logic, not the ratio itself. -/
def candScore (scorer : String → String → Nat) (original_title : String)
    (item : Candidate) : Nat :=
  scorer item.title original_title

/-- Loop body of the best-candidate scan: `if score > best_score:
best_score = score; best_video_id = item['id']['videoId']`. -/
def bestStep (scorer : String → String → Nat) (original_title : String)
    (acc : Nat × Option String) (item : Candidate) : Nat × Option String :=
  if candScore scorer original_title item > acc.1 then
    (candScore scorer original_title item, some item.videoId)
  else acc

/-- The scan over `response['items']`, started from
`best_score = 0, best_video_id = None`. -/
def bestCandidate (scorer : String → String → Nat) (original_title : String)
    (items : List Candidate) : Nat × Option String :=
  items.foldl (bestStep scorer original_title) (0, none)

/-- Observable outcome of one call to `fuzzy_search_youtube`: the returned
value (or the propagated exception), the cache after the call (Python mutates
the dict in place), and how many times a search request was actually executed
(`HttpRequest.execute()` is the only step that performs network I/O). -/
structure FuzzyOut where
  result : Except HttpError (Option String)
  cache : Cache
  searchExecs : Nat

/-- `fuzzy_search_youtube(youtube, query, original_title, cache)`.
`execSearch` is the deterministic remote oracle executing a search request.
The wrapping is exactly as in the source: `retry` is applied to the request
constructor `youtube.search().list` (which cannot raise `HttpError`), and
`.execute()` is called on `retry`'s return value, outside the retried region;
the two branches returning status 0 are unreachable because request
construction never fails. -/
def fuzzy_search_youtube (scorer : String → String → Nat)
    (execSearch : SearchRequest → Except HttpError (List Candidate))
    (query original_title : String) (cache : Cache) : FuzzyOut :=
  match cache.lookup original_title with
  | some v => { result := Except.ok (some v), cache := cache, searchExecs := 0 }
  | none =>
    match (retry (fun _ => Except.ok (searchList query))).result with
    | Except.error e =>
      { result := Except.error e, cache := cache, searchExecs := 0 }
    | Except.ok none =>
      { result := Except.error { status := 0 }, cache := cache, searchExecs := 0 }
    | Except.ok (some req) =>
      match execSearch req with
      | Except.error e =>
        { result := Except.error e, cache := cache, searchExecs := 1 }
      | Except.ok items =>
        let best := bestCandidate scorer original_title items
        if pyTruthy best.2 then
          { result := Except.ok best.2,
            cache := (original_title, best.2.getD "") :: cache, searchExecs := 1 }
        else
          { result := Except.ok best.2, cache := cache, searchExecs := 1 }

/-- A playlist-item insertion request as constructed by
`youtube.playlistItems().insert(part="snippet", body={...})`; construction
performs no I/O. -/
structure InsertRequest where
  playlistId : String
  videoId : String
deriving DecidableEq, Repr

/-- Observable outcome of `add_to_youtube_playlist`: the returned value or
propagated exception, and how many times the insertion was actually executed. -/
structure InsertOut where
  result : Except HttpError Unit
  insertExecs : Nat

/-- `add_to_youtube_playlist(youtube, playlist_id, video_id)`: as in the
source, `retry` wraps the request constructor `youtube.playlistItems().insert`
and `.execute()` runs on its result, outside the retried region. -/
def add_to_youtube_playlist
    (execInsert : InsertRequest → Except HttpError Unit)
    (playlist_id video_id : String) : InsertOut :=
  match (retry (fun _ =>
      Except.ok (InsertRequest.mk playlist_id video_id))).result with
  | Except.error e => { result := Except.error e, insertExecs := 0 }
  | Except.ok none => { result := Except.error { status := 0 }, insertExecs := 0 }
  | Except.ok (some req) => { result := execInsert req, insertExecs := 1 }

/-- A remote under which every search execution fails with transient 429. -/
def searchAlways429 : SearchRequest → Except HttpError (List Candidate) :=
  fun _ => Except.error { status := 429 }

/-- A remote under which every insert execution fails with transient 429. -/
def insertAlways429 : InsertRequest → Except HttpError Unit :=
  fun _ => Except.error { status := 429 }

/-- C2: the remote search and insertion executions are NOT protected by the
executor.  With an empty cache and a remote answering 429 (a transient status)
on the first execution, `fuzzy_search_youtube` propagates the 429 after exactly
one execution, and so does `add_to_youtube_playlist`; the executor was applied
only to the never-failing request constructor, which it invoked exactly once
with no back-off sleep. -/
theorem search_insert_exec_not_retried :
    (fuzzy_search_youtube (fun _ _ => 0) searchAlways429 "q" "q" []).result
      = Except.error { status := 429 } ∧
    (fuzzy_search_youtube (fun _ _ => 0) searchAlways429 "q" "q" []).searchExecs
      = 1 ∧
    (add_to_youtube_playlist insertAlways429 "pl" "vid").result
      = Except.error { status := 429 } ∧
    (add_to_youtube_playlist insertAlways429 "pl" "vid").insertExecs = 1 ∧
    isTransient 429 = true ∧
    (retry (fun _ => Except.ok (searchList "q"))).calls = 1 ∧
    (retry (fun _ => Except.ok (searchList "q"))).sleeps = [] :=
  ⟨rfl, rfl, rfl, rfl, rfl, rfl, rfl⟩

theorem fuzzy_eval_hit (scorer : String → String → Nat)
    (execSearch : SearchRequest → Except HttpError (List Candidate))
    (query original_title v : String) (cache : Cache)
    (h : cache.lookup original_title = some v) :
    fuzzy_search_youtube scorer execSearch query original_title cache =
      { result := Except.ok (some v), cache := cache, searchExecs := 0 } := by
  unfold fuzzy_search_youtube
  rw [h]

/-- C4: if the descriptor is already a cache key, `fuzzy_search_youtube`
returns the cached id immediately: the cache is unchanged and no remote call of
any kind is made (zero search executions). -/
theorem cache_hit_short_circuit (scorer : String → String → Nat)
    (execSearch : SearchRequest → Except HttpError (List Candidate))
    (query original_title v : String) (cache : Cache)
    (h : cache.lookup original_title = some v) :
    fuzzy_search_youtube scorer execSearch query original_title cache =
      { result := Except.ok (some v), cache := cache, searchExecs := 0 } :=
  fuzzy_eval_hit scorer execSearch query original_title v cache h

/-- Witness for C4 on a one-entry cache. -/
theorem cache_hit_short_circuit_witness :
    ([("d", "vid1")] : Cache).lookup "d" = some "vid1" ∧
    fuzzy_search_youtube (fun _ _ => 0) searchAlways429 "d" "d" [("d", "vid1")] =
      { result := Except.ok (some "vid1"), cache := [("d", "vid1")],
        searchExecs := 0 } :=
  ⟨rfl, cache_hit_short_circuit (fun _ _ => 0) searchAlways429 "d" "d" "vid1"
    [("d", "vid1")] rfl⟩

theorem foldl_bestStep_no_update (scorer : String → String → Nat) (o : String) :
    ∀ (l : List Candidate) (b : Nat) (x : Option String),
    (∀ c ∈ l, candScore scorer o c ≤ b) →
    l.foldl (bestStep scorer o) (b, x) = (b, x) := by
  intro l
  induction l with
  | nil => intro b x _; rfl
  | cons c rest ih =>
    intro b x h
    have hc := h c (List.mem_cons_self c rest)
    simp only [List.foldl_cons, bestStep]
    rw [if_neg (by omega)]
    exact ih b x (fun d hd => h d (List.mem_cons_of_mem c hd))

theorem foldl_bestStep_select (scorer : String → String → Nat) (o : String) :
    ∀ (l : List Candidate) (j : Nat) (hj : j < l.length) (b : Nat)
      (x : Option String),
    b < candScore scorer o (l.get ⟨j, hj⟩) →
    (∀ i (hi : i < l.length), i < j →
      candScore scorer o (l.get ⟨i, hi⟩) < candScore scorer o (l.get ⟨j, hj⟩)) →
    (∀ i (hi : i < l.length),
      candScore scorer o (l.get ⟨i, hi⟩) ≤ candScore scorer o (l.get ⟨j, hj⟩)) →
    l.foldl (bestStep scorer o) (b, x) =
      (candScore scorer o (l.get ⟨j, hj⟩), some (l.get ⟨j, hj⟩).videoId) := by
  intro l
  induction l with
  | nil => intro j hj; exact absurd hj (by simp)
  | cons c rest ih =>
    intro j hj b x hb hless hle
    cases j with
    | zero =>
      simp only [List.get] at hb hle ⊢
      simp only [List.foldl_cons, bestStep]
      rw [if_pos (by simpa using hb)]
      apply foldl_bestStep_no_update
      intro d hd
      obtain ⟨⟨i, hi⟩, rfl⟩ := List.mem_iff_get.mp hd
      exact hle (i + 1) (Nat.succ_lt_succ hi)
    | succ n =>
      have hn : n < rest.length := Nat.lt_of_succ_lt_succ hj
      have hb' : b < candScore scorer o (rest.get ⟨n, hn⟩) := hb
      have h0 : candScore scorer o c < candScore scorer o (rest.get ⟨n, hn⟩) := by
        have := hless 0 (Nat.succ_pos _) (Nat.succ_pos n)
        exact this
      have hless' : ∀ i (hi : i < rest.length), i < n →
          candScore scorer o (rest.get ⟨i, hi⟩) <
            candScore scorer o (rest.get ⟨n, hn⟩) := by
        intro i hi hin
        exact hless (i + 1) (Nat.succ_lt_succ hi) (Nat.succ_lt_succ hin)
      have hle' : ∀ i (hi : i < rest.length),
          candScore scorer o (rest.get ⟨i, hi⟩) ≤
            candScore scorer o (rest.get ⟨n, hn⟩) := by
        intro i hi
        exact hle (i + 1) (Nat.succ_lt_succ hi)
      simp only [List.foldl_cons, bestStep]
      by_cases hc : candScore scorer o c > b
      · rw [if_pos (by simpa using hc)]
        exact ih n hn (candScore scorer o c) (some c.videoId) h0 hless' hle'
      · rw [if_neg (by simpa using hc)]
        exact ih n hn b x hb' hless' hle'

/-- C5 counterexample: on the non-empty candidate list `[c1, c2]` where both
candidates score 0 (a tied maximum), the claimed tie-break rule would select
the first candidate `c1`, but the matcher selects NO candidate: the best score
starts at 0 and only a strictly greater score installs a candidate. -/
theorem best_tie_at_zero_counterexample :
    (bestCandidate (fun _ _ => 0) "x"
      [Candidate.mk "a" "v1", Candidate.mk "b" "v2"]).2 = none := rfl

/-- C5 (amended): for every candidate list and position `j` whose score is
positive, strictly above every earlier candidate's score, and at least every
other candidate's score (the first occurrence of the maximum), the matcher
selects candidate `j` — ties keep the first-seen candidate because only a
strictly greater score replaces the current best; if the maximum score is 0 no
candidate is selected. -/
theorem best_first_max_selected (scorer : String → String → Nat) (o : String)
    (l : List Candidate) (j : Nat) (hj : j < l.length)
    (hpos : 0 < candScore scorer o (l.get ⟨j, hj⟩))
    (hless : ∀ i (hi : i < l.length), i < j →
      candScore scorer o (l.get ⟨i, hi⟩) < candScore scorer o (l.get ⟨j, hj⟩))
    (hle : ∀ i (hi : i < l.length),
      candScore scorer o (l.get ⟨i, hi⟩) ≤ candScore scorer o (l.get ⟨j, hj⟩)) :
    bestCandidate scorer o l =
      (candScore scorer o (l.get ⟨j, hj⟩), some (l.get ⟨j, hj⟩).videoId) :=
  foldl_bestStep_select scorer o l j hj 0 none hpos hless hle

/-- A scorer realizing scores 70, 85, 85, 60 on titles "a", "b", "c", "d". -/
def tieScorer : String → String → Nat := fun t _ =>
  if t == "a" then 70 else if t == "b" then 85 else if t == "c" then 85 else 60

/-- Candidates whose scores under `tieScorer` are `[70, 85, 85, 60]`. -/
def tieCands : List Candidate :=
  [Candidate.mk "a" "v1", Candidate.mk "b" "v2",
   Candidate.mk "c" "v3", Candidate.mk "d" "v4"]

/-- Witness for the amended C5: with scores `[70, 85, 85, 60]` the matcher
selects the second candidate, the first occurrence of the maximum 85. -/
theorem best_first_max_selected_witness :
    0 < candScore tieScorer "x" (tieCands.get ⟨1, by decide⟩) ∧
    bestCandidate tieScorer "x" tieCands = (85, some "v2") := by
  have h := best_first_max_selected tieScorer "x" tieCands 1 (by decide)
    (by decide) (by decide) (by decide)
  exact ⟨by decide, h⟩

theorem fuzzy_eval_search_error (scorer : String → String → Nat)
    (execSearch : SearchRequest → Except HttpError (List Candidate))
    (query original_title : String) (cache : Cache) (e : HttpError)
    (h1 : cache.lookup original_title = none)
    (h2 : execSearch (searchList query) = Except.error e) :
    fuzzy_search_youtube scorer execSearch query original_title cache =
      { result := Except.error e, cache := cache, searchExecs := 1 } := by
  have hreq : (retry (fun _ => Except.ok (searchList query))).result
      = Except.ok (some (searchList query)) := rfl
  simp only [fuzzy_search_youtube, h1, hreq, h2]

theorem fuzzy_eval_search_ok (scorer : String → String → Nat)
    (execSearch : SearchRequest → Except HttpError (List Candidate))
    (query original_title : String) (cache : Cache) (items : List Candidate)
    (h1 : cache.lookup original_title = none)
    (h2 : execSearch (searchList query) = Except.ok items) :
    fuzzy_search_youtube scorer execSearch query original_title cache =
      (if pyTruthy (bestCandidate scorer original_title items).2 then
        { result := Except.ok (bestCandidate scorer original_title items).2,
          cache := (original_title,
            (bestCandidate scorer original_title items).2.getD "") :: cache,
          searchExecs := 1 }
      else
        { result := Except.ok (bestCandidate scorer original_title items).2,
          cache := cache, searchExecs := 1 }) := by
  have hreq : (retry (fun _ => Except.ok (searchList query))).result
      = Except.ok (some (searchList query)) := rfl
  simp only [fuzzy_search_youtube, h1, hreq, h2]

/-- C9: resolution never stores an absent value.  When the result is absent
(`none`) the descriptor was uncached and the cache is left unchanged — so the
next resolution of the same descriptor issues a fresh search (third conjunct:
an uncached descriptor always costs exactly one search execution) — and every
binding of the output cache is either an old binding or the non-empty matched
id for this descriptor. -/
theorem cache_stores_only_matches (scorer : String → String → Nat)
    (execSearch : SearchRequest → Except HttpError (List Candidate))
    (query original_title : String) (cache : Cache) :
    ((fuzzy_search_youtube scorer execSearch query original_title cache).result
        = Except.ok none →
      (fuzzy_search_youtube scorer execSearch query original_title cache).cache
        = cache ∧ cache.lookup original_title = none) ∧
    (∀ k v,
      (fuzzy_search_youtube scorer execSearch query original_title
          cache).cache.lookup k = some v →
      cache.lookup k = some v ∨
        (k = original_title ∧ v ≠ "" ∧
          (fuzzy_search_youtube scorer execSearch query original_title
            cache).result = Except.ok (some v))) ∧
    (cache.lookup original_title = none →
      (fuzzy_search_youtube scorer execSearch query original_title
        cache).searchExecs = 1) := by
  cases hcl : cache.lookup original_title with
  | some v0 =>
    rw [fuzzy_eval_hit scorer execSearch query original_title v0 cache hcl]
    exact ⟨fun h => by simp at h, fun k v hk => Or.inl hk,
      fun h => Option.noConfusion h⟩
  | none =>
    cases hex : execSearch (searchList query) with
    | error e =>
      rw [fuzzy_eval_search_error scorer execSearch query original_title cache e
        hcl hex]
      exact ⟨fun h => by simp at h, fun k v hk => Or.inl hk, fun _ => rfl⟩
    | ok items =>
      rw [fuzzy_eval_search_ok scorer execSearch query original_title cache items
        hcl hex]
      by_cases hp : pyTruthy (bestCandidate scorer original_title items).2 = true
      · rw [if_pos hp]
        obtain ⟨s, hbv⟩ : ∃ s,
            (bestCandidate scorer original_title items).2 = some s := by
          cases hb2 : (bestCandidate scorer original_title items).2 with
          | none => rw [hb2] at hp; simp [pyTruthy] at hp
          | some s => exact ⟨s, rfl⟩
        have hs : s ≠ "" := by
          rw [hbv] at hp
          simpa [pyTruthy] using hp
        rw [hbv]
        refine ⟨fun h => by simp at h, fun k v hk => ?_, fun _ => rfl⟩
        simp only [Option.getD_some] at hk
        rw [List.lookup_cons] at hk
        cases hkeq : (k == original_title) with
        | true =>
          rw [hkeq] at hk
          simp only [Option.some.injEq] at hk
          exact Or.inr ⟨eq_of_beq hkeq, hk ▸ hs, by rw [hk]⟩
        | false =>
          rw [hkeq] at hk
          exact Or.inl hk
      · rw [if_neg hp]
        exact ⟨fun _ => ⟨rfl, rfl⟩, fun k v hk => Or.inl hk, fun _ => rfl⟩

/-- A remote that finds no candidates for any search. -/
def emptySearch : SearchRequest → Except HttpError (List Candidate) :=
  fun _ => Except.ok []

/-- Witness for C9: an uncached descriptor with an empty search result
resolves to absent and leaves the (empty) cache unchanged. -/
theorem cache_stores_only_matches_witness :
    (fuzzy_search_youtube (fun _ _ => 0) emptySearch "d" "d" []).result
      = Except.ok none ∧
    (fuzzy_search_youtube (fun _ _ => 0) emptySearch "d" "d" []).cache
      = ([] : Cache) :=
  ⟨rfl, ((cache_stores_only_matches (fun _ _ => 0) emptySearch "d" "d" []).1
    rfl).1⟩

/-- The collaborators and per-playlist constants used by the track loop of
`convert_playlist`. -/
structure Ctx where
  scorer : String → String → Nat
  execSearch : SearchRequest → Except HttpError (List Candidate)
  execInsert : InsertRequest → Except HttpError Unit
  playlist_name : String
  yt_playlist_id : String

/-- In-run reconciliation state of `convert_playlist`: `existing_video_ids`
(the duplicate-detection set, as a list of ids), the match cache, the
insertions performed this run in order, and the failure-log lines appended
this run. -/
structure ConvertState where
  existing : List String
  cache : Cache
  inserted : List String
  failedLog : List String

/-- `log_failed_track`: the line `f'[{playlist_name}] {track}'` appended to
`failed_tracks.txt`. -/
def logLine (playlist_name track : String) : String :=
  "[" ++ playlist_name ++ "] " ++ track

/-- One iteration of the track loop of `convert_playlist`:
`video_id = fuzzy_search_youtube(youtube, track, track, cache)`;
`if not video_id: log_failed_track(track, playlist_name); continue`;
`if video_id in existing_video_ids: continue`;
`add_to_youtube_playlist(youtube, yt_playlist_id, video_id)`;
`existing_video_ids.add(video_id)`.
A propagated `HttpError` aborts the playlist; the Python dict `cache` survives
such an exception by in-place mutation, which the orchestrator layer models by
threading the cache through per-playlist outcomes. -/
def processTrack (ctx : Ctx) (st : ConvertState) (track : String) :
    Except HttpError ConvertState :=
  let fr := fuzzy_search_youtube ctx.scorer ctx.execSearch track track st.cache
  match fr.result with
  | Except.error e => Except.error e
  | Except.ok video_id =>
    if pyTruthy video_id then
      let v := video_id.getD ""
      if v ∈ st.existing then
        Except.ok { st with cache := fr.cache }
      else
        match (add_to_youtube_playlist ctx.execInsert
            ctx.yt_playlist_id v).result with
        | Except.error e => Except.error e
        | Except.ok _ =>
          Except.ok { existing := st.existing ++ [v], cache := fr.cache,
                      inserted := st.inserted ++ [v], failedLog := st.failedLog }
    else
      Except.ok { st with
        cache := fr.cache
        failedLog := st.failedLog ++ [logLine ctx.playlist_name track] }

/-- The track loop of `convert_playlist` over the full descriptor list. -/
def convertTracks (ctx : Ctx) :
    List String → ConvertState → Except HttpError ConvertState
  | [], st => Except.ok st
  | track :: rest, st =>
    match processTrack ctx st track with
    | Except.error e => Except.error e
    | Except.ok st' => convertTracks ctx rest st'

theorem processTrack_dup (ctx : Ctx) (st : ConvertState) (t v : String)
    (hcl : st.cache.lookup t = some v) (htruthy : pyTruthy (some v) = true)
    (hmem : v ∈ st.existing) :
    processTrack ctx st t = Except.ok st := by
  simp only [processTrack,
    fuzzy_eval_hit ctx.scorer ctx.execSearch t t v st.cache hcl,
    htruthy, if_true, Option.getD_some]
  simp [hmem]

theorem processTrack_hit_falsy (ctx : Ctx) (st : ConvertState) (t v : String)
    (hcl : st.cache.lookup t = some v) (hfalsy : pyTruthy (some v) = false) :
    processTrack ctx st t = Except.ok { st with
      failedLog := st.failedLog ++ [logLine ctx.playlist_name t] } := by
  simp only [processTrack,
    fuzzy_eval_hit ctx.scorer ctx.execSearch t t v st.cache hcl,
    hfalsy]
  simp

theorem processTrack_miss_falsy (ctx : Ctx) (st : ConvertState) (t : String)
    (items : List Candidate) (hcl : st.cache.lookup t = none)
    (hex : ctx.execSearch (searchList t) = Except.ok items)
    (hfalsy : pyTruthy (bestCandidate ctx.scorer t items).2 = false) :
    processTrack ctx st t = Except.ok { st with
      failedLog := st.failedLog ++ [logLine ctx.playlist_name t] } := by
  simp only [processTrack,
    fuzzy_eval_search_ok ctx.scorer ctx.execSearch t t st.cache items hcl hex,
    hfalsy]
  simp [hfalsy]

theorem bool_eq_false {b : Bool} (h : ¬(b = true)) : b = false := by
  cases b
  · rfl
  · exact absurd rfl h

theorem processTrack_miss_truthy (ctx : Ctx) (st : ConvertState) (t : String)
    (items : List Candidate) (s : String) (hcl : st.cache.lookup t = none)
    (hex : ctx.execSearch (searchList t) = Except.ok items)
    (hbv : (bestCandidate ctx.scorer t items).2 = some s)
    (htr : pyTruthy (some s) = true) :
    processTrack ctx st t =
      (if s ∈ st.existing then
        Except.ok { st with cache := (t, s) :: st.cache }
      else
        match (add_to_youtube_playlist ctx.execInsert
            ctx.yt_playlist_id s).result with
        | Except.error e => Except.error e
        | Except.ok _ =>
          Except.ok { existing := st.existing ++ [s], cache := (t, s) :: st.cache,
                      inserted := st.inserted ++ [s],
                      failedLog := st.failedLog }) := by
  simp only [processTrack,
    fuzzy_eval_search_ok ctx.scorer ctx.execSearch t t st.cache items hcl hex,
    hbv, htr, Option.getD_some]
  simp
  intro hfalse
  rw [htr] at hfalse
  exact Bool.noConfusion hfalse

theorem processTrack_ok_cases (ctx : Ctx) (st : ConvertState) (t : String)
    (st' : ConvertState) (h : processTrack ctx st t = Except.ok st') :
    (∃ v, st.cache.lookup t = some v ∧ pyTruthy (some v) = true ∧
      v ∈ st.existing ∧ st' = st) ∨
    (∃ v, st.cache.lookup t = some v ∧ pyTruthy (some v) = true ∧
      v ∉ st.existing ∧
      st' = { existing := st.existing ++ [v], cache := st.cache,
              inserted := st.inserted ++ [v], failedLog := st.failedLog }) ∨
    (∃ v, st.cache.lookup t = some v ∧ pyTruthy (some v) = false ∧
      st' = { st with
        failedLog := st.failedLog ++ [logLine ctx.playlist_name t] }) ∨
    (∃ items s, st.cache.lookup t = none ∧
      ctx.execSearch (searchList t) = Except.ok items ∧
      (bestCandidate ctx.scorer t items).2 = some s ∧ pyTruthy (some s) = true ∧
      s ∈ st.existing ∧ st' = { st with cache := (t, s) :: st.cache }) ∨
    (∃ items s, st.cache.lookup t = none ∧
      ctx.execSearch (searchList t) = Except.ok items ∧
      (bestCandidate ctx.scorer t items).2 = some s ∧ pyTruthy (some s) = true ∧
      s ∉ st.existing ∧
      st' = { existing := st.existing ++ [s], cache := (t, s) :: st.cache,
              inserted := st.inserted ++ [s], failedLog := st.failedLog }) ∨
    (∃ items, st.cache.lookup t = none ∧
      ctx.execSearch (searchList t) = Except.ok items ∧
      pyTruthy (bestCandidate ctx.scorer t items).2 = false ∧
      st' = { st with
        failedLog := st.failedLog ++ [logLine ctx.playlist_name t] }) := by
  cases hcl : st.cache.lookup t with
  | some v =>
    by_cases htr : pyTruthy (some v) = true
    · by_cases hmem : v ∈ st.existing
      · rw [processTrack_dup ctx st t v hcl htr hmem] at h
        injection h with h2
        exact Or.inl ⟨v, rfl, htr, hmem, h2.symm⟩
      · simp only [processTrack,
          fuzzy_eval_hit ctx.scorer ctx.execSearch t t v st.cache hcl,
          htr, Option.getD_some, if_true, if_neg hmem] at h
        cases hins : (add_to_youtube_playlist ctx.execInsert
            ctx.yt_playlist_id v).result with
        | error e => rw [hins] at h; exact absurd h (by simp)
        | ok u =>
          rw [hins] at h
          injection h with h2
          exact Or.inr (Or.inl ⟨v, rfl, htr, hmem, h2.symm⟩)
    · have hf := bool_eq_false htr
      rw [processTrack_hit_falsy ctx st t v hcl hf] at h
      injection h with h2
      exact Or.inr (Or.inr (Or.inl ⟨v, rfl, hf, h2.symm⟩))
  | none =>
    cases hex : ctx.execSearch (searchList t) with
    | error e =>
      simp only [processTrack,
        fuzzy_eval_search_error ctx.scorer ctx.execSearch t t st.cache e hcl
          hex] at h
      exact absurd h (by simp)
    | ok items =>
      by_cases hp : pyTruthy (bestCandidate ctx.scorer t items).2 = true
      · obtain ⟨s, hbv⟩ : ∃ s, (bestCandidate ctx.scorer t items).2 = some s := by
          cases hb2 : (bestCandidate ctx.scorer t items).2 with
          | none => rw [hb2] at hp; simp [pyTruthy] at hp
          | some s => exact ⟨s, rfl⟩
        have htr : pyTruthy (some s) = true := hbv ▸ hp
        rw [processTrack_miss_truthy ctx st t items s hcl hex hbv htr] at h
        by_cases hmem : s ∈ st.existing
        · rw [if_pos hmem] at h
          injection h with h2
          exact Or.inr (Or.inr (Or.inr (Or.inl
            ⟨items, s, rfl, rfl, hbv, htr, hmem, h2.symm⟩)))
        · rw [if_neg hmem] at h
          cases hins : (add_to_youtube_playlist ctx.execInsert
              ctx.yt_playlist_id s).result with
          | error e => rw [hins] at h; exact absurd h (by simp)
          | ok u =>
            rw [hins] at h
            injection h with h2
            exact Or.inr (Or.inr (Or.inr (Or.inr (Or.inl
              ⟨items, s, rfl, rfl, hbv, htr, hmem, h2.symm⟩))))
      · have hf := bool_eq_false hp
        rw [processTrack_miss_falsy ctx st t items hcl hex hf] at h
        injection h with h2
        exact Or.inr (Or.inr (Or.inr (Or.inr (Or.inr
          ⟨items, rfl, rfl, hf, h2.symm⟩))))

/-- A (cache, duplicate-set) pair "handles" a descriptor when re-processing it
cannot insert: the descriptor is cached with a truthy id already in the
duplicate set, or cached with a falsy id, or uncached while the deterministic
search yields no truthy best candidate. -/
def Handled (ctx : Ctx) (cache : Cache) (existing : List String)
    (t : String) : Prop :=
  match cache.lookup t with
  | some v => pyTruthy (some v) = true → v ∈ existing
  | none => ∃ items, ctx.execSearch (searchList t) = Except.ok items ∧
      pyTruthy (bestCandidate ctx.scorer t items).2 = false

theorem handled_of_lookup_some (ctx : Ctx) (cache : Cache)
    (existing : List String) (t v : String) (hcl : cache.lookup t = some v)
    (h : pyTruthy (some v) = true → v ∈ existing) :
    Handled ctx cache existing t := by
  unfold Handled
  rw [hcl]
  exact h

theorem handled_of_lookup_none (ctx : Ctx) (cache : Cache)
    (existing : List String) (t : String) (items : List Candidate)
    (hcl : cache.lookup t = none)
    (hex : ctx.execSearch (searchList t) = Except.ok items)
    (hfalsy : pyTruthy (bestCandidate ctx.scorer t items).2 = false) :
    Handled ctx cache existing t := by
  unfold Handled
  rw [hcl]
  exact ⟨items, hex, hfalsy⟩

theorem handled_elim (ctx : Ctx) (cache : Cache) (existing : List String)
    (t : String) (h : Handled ctx cache existing t) :
    (∃ v, cache.lookup t = some v ∧ (pyTruthy (some v) = true → v ∈ existing)) ∨
    (cache.lookup t = none ∧ ∃ items,
      ctx.execSearch (searchList t) = Except.ok items ∧
      pyTruthy (bestCandidate ctx.scorer t items).2 = false) := by
  unfold Handled at h
  cases hcl : cache.lookup t with
  | some v => rw [hcl] at h; exact Or.inl ⟨v, rfl, h⟩
  | none => rw [hcl] at h; exact Or.inr ⟨rfl, h⟩

theorem processTrack_establishes_handled (ctx : Ctx) (st st' : ConvertState)
    (t : String) (hs : processTrack ctx st t = Except.ok st') :
    Handled ctx st'.cache st'.existing t := by
  rcases processTrack_ok_cases ctx st t st' hs with
    ⟨v, hcl, htr, hmem, rfl⟩ | ⟨v, hcl, htr, hmem, rfl⟩ | ⟨v, hcl, hf, rfl⟩ |
    ⟨items, s, hcl, hex, hbv, htr, hmem, rfl⟩ |
    ⟨items, s, hcl, hex, hbv, htr, hmem, rfl⟩ | ⟨items, hcl, hex, hf, rfl⟩
  · exact handled_of_lookup_some ctx _ _ t v hcl (fun _ => hmem)
  · exact handled_of_lookup_some ctx _ _ t v hcl
      (fun _ => List.mem_append.mpr (Or.inr (by simp)))
  · refine handled_of_lookup_some ctx _ _ t v hcl (fun hT => ?_)
    rw [hf] at hT
    exact Bool.noConfusion hT
  · refine handled_of_lookup_some ctx _ _ t s ?_ (fun _ => hmem)
    rw [List.lookup_cons]
    simp
  · refine handled_of_lookup_some ctx _ _ t s ?_
      (fun _ => List.mem_append.mpr (Or.inr (by simp)))
    rw [List.lookup_cons]
    simp
  · exact handled_of_lookup_none ctx _ _ t items hcl hex hf

theorem processTrack_preserves_handled (ctx : Ctx) (st st' : ConvertState)
    (u t : String) (hs : processTrack ctx st u = Except.ok st')
    (h : Handled ctx st.cache st.existing t) :
    Handled ctx st'.cache st'.existing t := by
  rcases processTrack_ok_cases ctx st u st' hs with
    ⟨v, hcl, htr, hmem, rfl⟩ | ⟨v, hcl, htr, hmem, rfl⟩ | ⟨v, hcl, hf, rfl⟩ |
    ⟨items, s, hcl, hex, hbv, htr, hmem, rfl⟩ |
    ⟨items, s, hcl, hex, hbv, htr, hmem, rfl⟩ | ⟨items, hcl, hex, hf, rfl⟩
  · exact h
  · rcases handled_elim ctx st.cache st.existing t h with
      ⟨w, hw, himp⟩ | ⟨hn, items, hex2, hf2⟩
    · exact handled_of_lookup_some ctx _ _ t w hw
        (fun hT => List.mem_append.mpr (Or.inl (himp hT)))
    · exact handled_of_lookup_none ctx _ _ t items hn hex2 hf2
  · exact h
  · rcases handled_elim ctx st.cache st.existing t h with
      ⟨w, hw, himp⟩ | ⟨hn, items2, hex2, hf2⟩
    · cases hkeq : (t == u) with
      | true =>
        refine handled_of_lookup_some ctx _ _ t s ?_ (fun _ => hmem)
        rw [List.lookup_cons, hkeq]
      | false =>
        refine handled_of_lookup_some ctx _ _ t w ?_ himp
        rw [List.lookup_cons, hkeq]
        exact hw
    · cases hkeq : (t == u) with
      | true =>
        refine handled_of_lookup_some ctx _ _ t s ?_ (fun _ => hmem)
        rw [List.lookup_cons, hkeq]
      | false =>
        refine handled_of_lookup_none ctx _ _ t items2 ?_ hex2 hf2
        rw [List.lookup_cons, hkeq]
        exact hn
  · rcases handled_elim ctx st.cache st.existing t h with
      ⟨w, hw, himp⟩ | ⟨hn, items2, hex2, hf2⟩
    · cases hkeq : (t == u) with
      | true =>
        refine handled_of_lookup_some ctx _ _ t s ?_
          (fun _ => List.mem_append.mpr (Or.inr (by simp)))
        rw [List.lookup_cons, hkeq]
      | false =>
        refine handled_of_lookup_some ctx _ _ t w ?_
          (fun hT => List.mem_append.mpr (Or.inl (himp hT)))
        rw [List.lookup_cons, hkeq]
        exact hw
    · cases hkeq : (t == u) with
      | true =>
        refine handled_of_lookup_some ctx _ _ t s ?_
          (fun _ => List.mem_append.mpr (Or.inr (by simp)))
        rw [List.lookup_cons, hkeq]
      | false =>
        refine handled_of_lookup_none ctx _ _ t items2 ?_ hex2 hf2
        rw [List.lookup_cons, hkeq]
        exact hn
  · exact h

theorem convertTracks_preserves_handled (ctx : Ctx) (t : String) :
    ∀ (ts : List String) (st st' : ConvertState),
    convertTracks ctx ts st = Except.ok st' →
    Handled ctx st.cache st.existing t →
    Handled ctx st'.cache st'.existing t := by
  intro ts
  induction ts with
  | nil =>
    intro st st' h hH
    simp only [convertTracks] at h
    injection h with h2
    exact h2 ▸ hH
  | cons a ts ih =>
    intro st st' h hH
    simp only [convertTracks] at h
    cases hp : processTrack ctx st a with
    | error e => rw [hp] at h; simp at h
    | ok st1 =>
      rw [hp] at h
      exact ih st1 st' h (processTrack_preserves_handled ctx st st1 a t hp hH)

theorem convertTracks_establishes_handled (ctx : Ctx) :
    ∀ (ts : List String) (st st' : ConvertState),
    convertTracks ctx ts st = Except.ok st' →
    ∀ t ∈ ts, Handled ctx st'.cache st'.existing t := by
  intro ts
  induction ts with
  | nil => intro st st' _ t ht; exact absurd ht (List.not_mem_nil t)
  | cons a ts ih =>
    intro st st' h t ht
    simp only [convertTracks] at h
    cases hp : processTrack ctx st a with
    | error e => rw [hp] at h; simp at h
    | ok st1 =>
      rw [hp] at h
      rcases List.mem_cons.mp ht with rfl | hmem
      · exact convertTracks_preserves_handled ctx t ts st1 st' h
          (processTrack_establishes_handled ctx st st1 t hp)
      · exact ih st1 st' h t hmem

theorem processTrack_of_handled (ctx : Ctx) (st : ConvertState) (t : String)
    (h : Handled ctx st.cache st.existing t) :
    ∃ st', processTrack ctx st t = Except.ok st' ∧
      st'.existing = st.existing ∧ st'.cache = st.cache ∧
      st'.inserted = st.inserted := by
  rcases handled_elim ctx st.cache st.existing t h with
    ⟨v, hcl, himp⟩ | ⟨hcl, items, hex, hf⟩
  · by_cases htr : pyTruthy (some v) = true
    · exact ⟨st, processTrack_dup ctx st t v hcl htr (himp htr), rfl, rfl, rfl⟩
    · exact ⟨_, processTrack_hit_falsy ctx st t v hcl (bool_eq_false htr),
        rfl, rfl, rfl⟩
  · exact ⟨_, processTrack_miss_falsy ctx st t items hcl hex hf, rfl, rfl, rfl⟩

theorem convertTracks_of_handled (ctx : Ctx) :
    ∀ (ts : List String) (st : ConvertState),
    (∀ t ∈ ts, Handled ctx st.cache st.existing t) →
    ∃ st', convertTracks ctx ts st = Except.ok st' ∧
      st'.existing = st.existing ∧ st'.cache = st.cache ∧
      st'.inserted = st.inserted := by
  intro ts
  induction ts with
  | nil => intro st _; exact ⟨st, rfl, rfl, rfl, rfl⟩
  | cons a ts ih =>
    intro st hH
    obtain ⟨st1, hp, he, hc, hi⟩ := processTrack_of_handled ctx st a
      (hH a (List.mem_cons_self a ts))
    obtain ⟨st2, hrun, he2, hc2, hi2⟩ := ih st1 (fun t ht => by
      rw [hc, he]
      exact hH t (List.mem_cons_of_mem a ht))
    refine ⟨st2, ?_, by rw [he2, he], by rw [hc2, hc], by rw [hi2, hi]⟩
    simp only [convertTracks, hp]
    exact hrun

/-- C3: reconciliation is idempotent with respect to insertions.  First
conjunct: if a run over `tracks` succeeds, a second run over the same tracks
against the resulting destination state succeeds, performs zero insertions,
and leaves the destination item-id set exactly as after the first run.  Second
conjunct: within a run, a successful insertion of `v` appends `v` to the
duplicate-detection set (before any later duplicate check, since the loop
threads the state).  Third conjunct: a track resolving to a truthy id already
in the set is skipped — no insertion, no failure record, duplicate set
unchanged. -/
theorem convert_idempotent (ctx : Ctx) (tracks : List String)
    (st0 st1 : ConvertState)
    (h1 : convertTracks ctx tracks st0 = Except.ok st1) :
    (∃ st2, convertTracks ctx tracks
        { existing := st1.existing, cache := st1.cache,
          inserted := [], failedLog := [] } = Except.ok st2 ∧
      st2.existing = st1.existing ∧ st2.inserted = []) ∧
    (∀ st st' t v, processTrack ctx st t = Except.ok st' →
      st'.inserted = st.inserted ++ [v] →
      st'.existing = st.existing ++ [v]) ∧
    (∀ st st' t v, processTrack ctx st t = Except.ok st' →
      (fuzzy_search_youtube ctx.scorer ctx.execSearch t t st.cache).result
        = Except.ok (some v) →
      pyTruthy (some v) = true → v ∈ st.existing →
      st'.existing = st.existing ∧ st'.inserted = st.inserted ∧
      st'.failedLog = st.failedLog) := by
  refine ⟨?_, ?_, ?_⟩
  · have hH := convertTracks_establishes_handled ctx tracks st0 st1 h1
    obtain ⟨st2, hrun, he, hc, hi⟩ := convertTracks_of_handled ctx tracks
      { existing := st1.existing, cache := st1.cache,
        inserted := [], failedLog := [] } (fun t ht => hH t ht)
    exact ⟨st2, hrun, he, hi⟩
  · intro st st' t v hp hins
    rcases processTrack_ok_cases ctx st t st' hp with
      ⟨w, hcl, htr, hmem, rfl⟩ | ⟨w, hcl, htr, hmem, rfl⟩ | ⟨w, hcl, hf, rfl⟩ |
      ⟨items, s, hcl, hex, hbv, htr, hmem, rfl⟩ |
      ⟨items, s, hcl, hex, hbv, htr, hmem, rfl⟩ | ⟨items, hcl, hex, hf, rfl⟩
    · exact absurd hins (by simp)
    · have hws : w = v := by
        have h3 : st.inserted ++ [w] = st.inserted ++ [v] := hins
        have h4 := List.append_cancel_left h3
        simpa using h4
      simp [hws]
    · exact absurd hins (by simp)
    · exact absurd hins (by simp)
    · have hws : s = v := by
        have h3 : st.inserted ++ [s] = st.inserted ++ [v] := hins
        have h4 := List.append_cancel_left h3
        simpa using h4
      simp [hws]
    · exact absurd hins (by simp)
  · intro st st' t v hp hres htr hmem
    rcases processTrack_ok_cases ctx st t st' hp with
      ⟨w, hcl, htrw, hmw, rfl⟩ | ⟨w, hcl, htrw, hmw, rfl⟩ | ⟨w, hcl, hf, rfl⟩ |
      ⟨items, s, hcl, hex, hbv, htrs, hms, rfl⟩ |
      ⟨items, s, hcl, hex, hbv, htrs, hms, rfl⟩ | ⟨items, hcl, hex, hf, rfl⟩
    · exact ⟨rfl, rfl, rfl⟩
    · rw [fuzzy_eval_hit ctx.scorer ctx.execSearch t t w st.cache
        hcl] at hres
      have : w = v := by simpa using hres
      exact absurd (this ▸ hmem) hmw
    · rw [fuzzy_eval_hit ctx.scorer ctx.execSearch t t w st.cache
        hcl] at hres
      have hwv : w = v := by simpa using hres
      rw [hwv] at hf
      rw [hf] at htr
      exact Bool.noConfusion htr
    · exact ⟨rfl, rfl, rfl⟩
    · rw [fuzzy_eval_search_ok ctx.scorer ctx.execSearch t t st.cache items
        hcl hex, hbv, if_pos htrs] at hres
      have hsv : s = v := by simpa using hres
      exact absurd (hsv ▸ hmem) hms
    · have hfneg : ¬(pyTruthy (bestCandidate ctx.scorer t items).2 = true) := by
        rw [hf]
        simp
      rw [fuzzy_eval_search_ok ctx.scorer ctx.execSearch t t st.cache items
        hcl hex, if_neg hfneg] at hres
      have hbv2 : (bestCandidate ctx.scorer t items).2 = some v := by
        simpa using hres
      rw [hbv2] at hf
      rw [hf] at htr
      exact Bool.noConfusion htr

/-- A destination world for the idempotency witness: every search finds one
candidate scoring 90, every insertion succeeds. -/
def ctxW : Ctx :=
  { scorer := fun _ _ => 90
    execSearch := fun _ => Except.ok [Candidate.mk "T" "vid1"]
    execInsert := fun _ => Except.ok ()
    playlist_name := "P"
    yt_playlist_id := "Y" }

/-- Initial reconciliation state for the idempotency witness. -/
def stW0 : ConvertState :=
  { existing := [], cache := [], inserted := [], failedLog := [] }

/-- State after the first witness run: one id matched, inserted and cached. -/
def stW1 : ConvertState :=
  { existing := ["vid1"], cache := [("t1", "vid1")],
    inserted := ["vid1"], failedLog := [] }

/-- Witness for C3 on a one-track playlist: the first run inserts "vid1";
the second run inserts nothing and keeps the item-id set. -/
theorem convert_idempotent_witness :
    convertTracks ctxW ["t1"] stW0 = Except.ok stW1 ∧
    ((∃ st2, convertTracks ctxW ["t1"]
        { existing := stW1.existing, cache := stW1.cache,
          inserted := [], failedLog := [] } = Except.ok st2 ∧
      st2.existing = stW1.existing ∧ st2.inserted = []) ∧
    (∀ st st' t v, processTrack ctxW st t = Except.ok st' →
      st'.inserted = st.inserted ++ [v] →
      st'.existing = st.existing ++ [v]) ∧
    (∀ st st' t v, processTrack ctxW st t = Except.ok st' →
      (fuzzy_search_youtube ctxW.scorer ctxW.execSearch t t st.cache).result
        = Except.ok (some v) →
      pyTruthy (some v) = true → v ∈ st.existing →
      st'.existing = st.existing ∧ st'.inserted = st.inserted ∧
      st'.failedLog = st.failedLog)) :=
  ⟨rfl, convert_idempotent ctxW ["t1"] stW0 stW1 rfl⟩

theorem bestCandidate_all_zero (scorer : String → String → Nat) (o : String)
    (items : List Candidate) (h : ∀ c ∈ items, candScore scorer o c = 0) :
    bestCandidate scorer o items = (0, none) := by
  unfold bestCandidate
  apply foldl_bestStep_no_update
  intro c hc
  rw [h c hc]

/-- C6: for an uncached descriptor whose search returns zero candidates or
only candidates scoring 0, resolution returns absent (not an error) and leaves
the cache unchanged; the reconciler then appends exactly one failure-log line
`[playlist_name] descriptor` — the exact display name and descriptor — with no
insertion and no change to the duplicate set, and continues with the next
track. -/
theorem no_match_logs_failure (ctx : Ctx) (st : ConvertState) (t : String)
    (items : List Candidate) (rest : List String)
    (hmiss : st.cache.lookup t = none)
    (hsearch : ctx.execSearch (searchList t) = Except.ok items)
    (hzero : ∀ c ∈ items, candScore ctx.scorer t c = 0) :
    (fuzzy_search_youtube ctx.scorer ctx.execSearch t t st.cache).result
      = Except.ok none ∧
    (fuzzy_search_youtube ctx.scorer ctx.execSearch t t st.cache).cache
      = st.cache ∧
    processTrack ctx st t = Except.ok { st with
      failedLog := st.failedLog ++ [logLine ctx.playlist_name t] } ∧
    convertTracks ctx (t :: rest) st = convertTracks ctx rest { st with
      failedLog := st.failedLog ++ [logLine ctx.playlist_name t] } := by
  have hbc := bestCandidate_all_zero ctx.scorer t items hzero
  have hfalsy : pyTruthy (bestCandidate ctx.scorer t items).2 = false := by
    rw [hbc]
    rfl
  have hfneg : ¬(pyTruthy (bestCandidate ctx.scorer t items).2 = true) := by
    rw [hfalsy]
    simp
  have hfz := fuzzy_eval_search_ok ctx.scorer ctx.execSearch t t st.cache items
    hmiss hsearch
  have hpt := processTrack_miss_falsy ctx st t items hmiss hsearch hfalsy
  refine ⟨?_, ?_, hpt, ?_⟩
  · rw [hfz, if_neg hfneg, hbc]
  · rw [hfz, if_neg hfneg]
  · simp only [convertTracks, hpt]

/-- A destination world for the no-match witness: every search succeeds with
zero candidates. -/
def ctxW6 : Ctx :=
  { scorer := fun _ _ => 0
    execSearch := fun _ => Except.ok []
    execInsert := fun _ => Except.ok ()
    playlist_name := "Road Trip"
    yt_playlist_id := "Y" }

/-- Initial state for the no-match witness. -/
def stW6 : ConvertState :=
  { existing := [], cache := [], inserted := [], failedLog := [] }

/-- Witness for C6: an uncached descriptor with an empty candidate list is
logged as `[Road Trip] Song B ArtistY` and the loop continues. -/
theorem no_match_logs_failure_witness :
    stW6.cache.lookup "Song B ArtistY" = none ∧
    ctxW6.execSearch (searchList "Song B ArtistY") = Except.ok [] ∧
    ((fuzzy_search_youtube ctxW6.scorer ctxW6.execSearch "Song B ArtistY"
        "Song B ArtistY" stW6.cache).result = Except.ok none ∧
    (fuzzy_search_youtube ctxW6.scorer ctxW6.execSearch "Song B ArtistY"
        "Song B ArtistY" stW6.cache).cache = stW6.cache ∧
    processTrack ctxW6 stW6 "Song B ArtistY" = Except.ok { stW6 with
      failedLog := stW6.failedLog ++
        [logLine ctxW6.playlist_name "Song B ArtistY"] } ∧
    convertTracks ctxW6 ["Song B ArtistY"] stW6 =
      convertTracks ctxW6 [] { stW6 with
        failedLog := stW6.failedLog ++
          [logLine ctxW6.playlist_name "Song B ArtistY"] }) :=
  ⟨rfl, rfl, no_match_logs_failure ctxW6 stW6 "Song B ArtistY" [] [] rfl rfl
    (fun c hc => absurd hc (List.not_mem_nil c))⟩

/-- The fields of a Spotify track object that the source reads:
`track['name']` and `track['artists'][0]['name']` (the primary artist). -/
structure SpTrack where
  name : String
  artist : String
deriving DecidableEq, Repr

/-- The track descriptor `f"{name} {artist}"`. -/
def descriptor (tr : SpTrack) : String :=
  tr.name ++ " " ++ tr.artist

/-- The inner loop of `get_spotify_tracks` over one page of
`results['items']`: `track = item['track']; if track: tracks.append(...)`;
an item's track field may be null, modelled as `Option`. -/
def collectPage : List (Option SpTrack) → List String → List String
  | [], tracks => tracks
  | none :: rest, tracks => collectPage rest tracks
  | some tr :: rest, tracks => collectPage rest (tracks ++ [descriptor tr])

/-- The pagination loop of `get_spotify_tracks`: pages are consumed in order
until `results['next']` is null; returns the accumulated descriptor list. -/
def get_spotify_tracks (pages : List (List (Option SpTrack))) : List String :=
  pages.foldl (fun tracks page => collectPage page tracks) []

theorem collectPage_eq (items : List (Option SpTrack)) : ∀ acc,
    collectPage items acc
      = acc ++ items.filterMap (fun o => Option.map descriptor o) := by
  induction items with
  | nil => intro acc; simp [collectPage]
  | cons o rest ih =>
    intro acc
    cases o with
    | none => simp [collectPage, ih]
    | some tr => simp [collectPage, ih]

theorem get_spotify_tracks_go (pages : List (List (Option SpTrack))) : ∀ acc,
    pages.foldl (fun tracks page => collectPage page tracks) acc
      = acc ++ (pages.flatten).filterMap (fun o => Option.map descriptor o) := by
  induction pages with
  | nil => intro acc; simp
  | cons page rest ih =>
    intro acc
    rw [List.foldl_cons, ih]
    simp [collectPage_eq, List.filterMap_append, List.append_assoc]

theorem processTrack_failedLog (ctx : Ctx) (st st' : ConvertState)
    (t : String) (h : processTrack ctx st t = Except.ok st') :
    st'.failedLog = st.failedLog ∨
    st'.failedLog = st.failedLog ++ [logLine ctx.playlist_name t] := by
  rcases processTrack_ok_cases ctx st t st' h with
    ⟨v, hcl, htr, hmem, rfl⟩ | ⟨v, hcl, htr, hmem, rfl⟩ | ⟨v, hcl, hf, rfl⟩ |
    ⟨items, s, hcl, hex, hbv, htr, hmem, rfl⟩ |
    ⟨items, s, hcl, hex, hbv, htr, hmem, rfl⟩ | ⟨items, hcl, hex, hf, rfl⟩
  · exact Or.inl rfl
  · exact Or.inl rfl
  · exact Or.inr rfl
  · exact Or.inl rfl
  · exact Or.inl rfl
  · exact Or.inr rfl

theorem convertTracks_failedLog (ctx : Ctx) :
    ∀ (ts : List String) (st st' : ConvertState),
    convertTracks ctx ts st = Except.ok st' →
    ∀ line ∈ st'.failedLog, line ∈ st.failedLog ∨
      ∃ t, t ∈ ts ∧ line = logLine ctx.playlist_name t := by
  intro ts
  induction ts with
  | nil =>
    intro st st' h line hline
    simp only [convertTracks] at h
    injection h with h2
    exact Or.inl (h2 ▸ hline)
  | cons a ts ih =>
    intro st st' h line hline
    simp only [convertTracks] at h
    cases hp : processTrack ctx st a with
    | error e => rw [hp] at h; simp at h
    | ok st1 =>
      rw [hp] at h
      rcases ih st1 st' h line hline with hmem | ⟨t, ht, rfl⟩
      · rcases processTrack_failedLog ctx st st1 a hp with heq | heq
        · rw [heq] at hmem
          exact Or.inl hmem
        · rw [heq] at hmem
          rcases List.mem_append.mp hmem with h1 | h2
          · exact Or.inl h1
          · have h3 : line = logLine ctx.playlist_name a := by simpa using h2
            exact Or.inr ⟨a, List.mem_cons_self a ts, h3⟩
      · exact Or.inr ⟨t, List.mem_cons_of_mem a ht, rfl⟩

/-- C10: a null source-playlist entry is silently skipped during track
extraction.  First conjunct: the returned list is exactly the descriptors of
the non-null tracks, in source order.  Second conjunct: inserting a null item
anywhere in any page leaves the returned list unchanged.  Third conjunct:
every failure-log line added by the reconciler is the log line of some
descriptor of the processed list, so a skipped entry (which contributes no
descriptor) is never matched, inserted, or logged. -/
theorem null_tracks_skipped (pages p1 p2 : List (List (Option SpTrack)))
    (page1 page2 : List (Option SpTrack)) :
    get_spotify_tracks pages
      = (pages.flatten).filterMap (fun o => Option.map descriptor o) ∧
    get_spotify_tracks (p1 ++ (page1 ++ none :: page2) :: p2)
      = get_spotify_tracks (p1 ++ (page1 ++ page2) :: p2) ∧
    (∀ (ctx : Ctx) (ts : List String) (st st' : ConvertState),
      convertTracks ctx ts st = Except.ok st' →
      ∀ line ∈ st'.failedLog, line ∈ st.failedLog ∨
        ∃ t, t ∈ ts ∧ line = logLine ctx.playlist_name t) := by
  refine ⟨?_, ?_, convertTracks_failedLog⟩
  · unfold get_spotify_tracks
    rw [get_spotify_tracks_go]
    simp
  · unfold get_spotify_tracks
    rw [get_spotify_tracks_go, get_spotify_tracks_go]
    simp

/-- The reconciliation state after the C10 witness run: the lone descriptor
is unmatched and logged. -/
def stW10 : ConvertState :=
  { existing := [], cache := [], inserted := [],
    failedLog := ["[Road Trip] x"] }

/-- Witness for C10: a two-page playlist with one null entry yields the two
non-null descriptors in order, and a concrete reconciliation run only logs
lines of processed descriptors. -/
theorem null_tracks_skipped_witness :
    get_spotify_tracks [[some (SpTrack.mk "Song A" "ArtistX"), none],
        [some (SpTrack.mk "Song B" "ArtistY")]]
      = ["Song A ArtistX", "Song B ArtistY"] ∧
    convertTracks ctxW6 ["x"] stW6 = Except.ok stW10 ∧
    (∀ line ∈ stW10.failedLog, line ∈ stW6.failedLog ∨
      ∃ t, t ∈ ["x"] ∧ line = logLine ctxW6.playlist_name t) :=
  ⟨rfl, rfl,
    (null_tracks_skipped [] [] [] [] []).2.2 ctxW6 ["x"] stW6 stW10 rfl⟩

/-- One event of the `__main__` run: a playlist conversion attempted, an error
reported (`print(f"❌ Error converting {pid}: {e}")`), or the cache saved
(`save_cache(cache)`). -/
inductive RunEvent
  | attempted (pid : String)
  | reported (pid : String)
  | saved (cache : Cache)
deriving DecidableEq, Repr

/-- The ids of the playlists attempted, in event order. -/
def attemptedOf (evs : List RunEvent) : List String :=
  evs.filterMap (fun e => match e with
    | RunEvent.attempted pid => some pid
    | _ => none)

/-- The cache snapshots persisted, in event order. -/
def savedOf (evs : List RunEvent) : List Cache :=
  evs.filterMap (fun e => match e with
    | RunEvent.saved c => some c
    | _ => none)

/-- The `for pid in playlist_ids: try: convert_playlist(...) except Exception
as e: print(...)` loop of `__main__`.  `convert` abstracts `convert_playlist`:
it returns the cache after the attempt (the Python dict is mutated in place,
so updates survive a raised exception) and the propagated error, if any.
Returns the cache after all attempts and the event trace. -/
def orchLoop (convert : String → Cache → Cache × Option HttpError) :
    List String → Cache → Cache × List RunEvent
  | [], cache => (cache, [])
  | pid :: rest, cache =>
    let step := convert pid cache
    let tail := orchLoop convert rest step.1
    (tail.1,
      RunEvent.attempted pid ::
        ((match step.2 with
          | some _ => [RunEvent.reported pid]
          | none => []) ++ tail.2))

/-- `__main__` after authentication and `cache = load_cache()`: run the loop
over the requested ids, then `save_cache(cache)` exactly once. -/
def runMain (convert : String → Cache → Cache × Option HttpError)
    (pids : List String) (cache0 : Cache) : Cache × List RunEvent :=
  let r := orchLoop convert pids cache0
  (r.1, r.2 ++ [RunEvent.saved r.1])

theorem orchLoop_spec (convert : String → Cache → Cache × Option HttpError) :
    ∀ (pids : List String) (cache : Cache),
    attemptedOf (orchLoop convert pids cache).2 = pids ∧
    savedOf (orchLoop convert pids cache).2 = [] ∧
    (orchLoop convert pids cache).1
      = pids.foldl (fun c p => (convert p c).1) cache := by
  intro pids
  induction pids with
  | nil => intro cache; exact ⟨rfl, rfl, rfl⟩
  | cons pid rest ih =>
    intro cache
    obtain ⟨h1, h2, h3⟩ := ih (convert pid cache).1
    cases herr : (convert pid cache).2 with
    | some e =>
      refine ⟨?_, ?_, ?_⟩
      · simp [orchLoop, herr, attemptedOf] at h1 ⊢
        exact h1
      · simp [orchLoop, herr, savedOf] at h2 ⊢
        exact h2
      · simp only [orchLoop, List.foldl_cons]
        exact h3
    | none =>
      refine ⟨?_, ?_, ?_⟩
      · simp [orchLoop, herr, attemptedOf] at h1 ⊢
        exact h1
      · simp [orchLoop, herr, savedOf] at h2 ⊢
        exact h2
      · simp only [orchLoop, List.foldl_cons]
        exact h3

/-- C8: the orchestrator attempts every requested playlist id in the given
order — an error during one playlist is caught and reported without stopping
the loop, so every later id is still attempted — and after all attempts the
match cache is persisted exactly once, as the final action; the persisted
cache is the cache threaded through every attempt, including those that
failed. -/
theorem orchestrator_attempts_all_saves_once
    (convert : String → Cache → Cache × Option HttpError)
    (pids : List String) (cache0 : Cache) :
    attemptedOf (runMain convert pids cache0).2 = pids ∧
    savedOf (runMain convert pids cache0).2
      = [(runMain convert pids cache0).1] ∧
    (runMain convert pids cache0).2.getLast?
      = some (RunEvent.saved (runMain convert pids cache0).1) ∧
    (runMain convert pids cache0).1
      = pids.foldl (fun c p => (convert p c).1) cache0 := by
  obtain ⟨h1, h2, h3⟩ := orchLoop_spec convert pids cache0
  refine ⟨?_, ?_, ?_, h3⟩
  · simp [runMain, attemptedOf, List.filterMap_append] at h1 ⊢
    exact h1
  · simp [runMain, savedOf, List.filterMap_append] at h2 ⊢
    exact h2
  · simp [runMain, List.getLast?_concat]

end PlaylistConverter
